import Mathlib

/-!
Verification development for the make87 messages shipper
(src/src/main.rs and src/src/message_handlers.rs).

The Rust program is shallowly embedded here:
* protobuf message values become Lean structures (bytes are `List Nat`),
* `f64` wall-clock / timestamp arithmetic is modelled over `ℚ`,
* side effects on the rerun `RecordingStream` become an explicit list of
  `SinkEvent`s emitted by each handler, in program order,
* fallible Rust functions returning `Result` become `Except String`.
-/

set_option autoImplicit false

namespace MessagesShipper

/-! ### Message data model (fields of the protobuf types used by the code) -/

/-- google.protobuf.Timestamp: `seconds : i64`, `nanos : i32`. -/
structure Timestamp where
  seconds : Int
  nanos : Int
  deriving DecidableEq, Repr

/-- make87_messages core Header; only the fields read by the code
(`entity_path`, `timestamp`) are modelled. -/
structure Header where
  entity_path : String
  timestamp : Option Timestamp
  deriving DecidableEq, Repr

/-- ImageYuv420: `width, height : u32`, `data : bytes`. -/
structure ImageYuv420 where
  width : Nat
  height : Nat
  data : List Nat
  deriving DecidableEq, Repr

/-- ImageRgb888 payload. -/
structure ImageRgb888 where
  width : Nat
  height : Nat
  data : List Nat
  deriving DecidableEq, Repr

/-- ImageRgba8888 payload. -/
structure ImageRgba8888 where
  width : Nat
  height : Nat
  data : List Nat
  deriving DecidableEq, Repr

/-- ImageNv12 payload. -/
structure ImageNv12 where
  width : Nat
  height : Nat
  data : List Nat
  deriving DecidableEq, Repr

/-- ImageYuv422 payload (recognized but unimplemented in the code). -/
structure ImageYuv422 where
  width : Nat
  height : Nat
  data : List Nat
  deriving DecidableEq, Repr

/-- ImageYuv444 payload (recognized but unimplemented in the code). -/
structure ImageYuv444 where
  width : Nat
  height : Nat
  data : List Nat
  deriving DecidableEq, Repr

/-- The one-of field `image_raw_any::Image`, in the order of the match arms of
`ImageRawAnyHandler::handle_message`. -/
inductive ImageVariant
  | rgb888 (img : ImageRgb888)
  | rgba8888 (img : ImageRgba8888)
  | yuv420 (img : ImageYuv420)
  | yuv422 (img : ImageYuv422)
  | yuv444 (img : ImageYuv444)
  | nv12 (img : ImageNv12)
  deriving DecidableEq, Repr

/-- ImageRawAny: optional header plus the optional one-of image field. -/
structure ImageRawAny where
  header : Option Header
  image : Option ImageVariant
  deriving DecidableEq, Repr

/-! ### Sink (rerun RecordingStream) effects -/

/-- The two `rerun::PixelFormat` values the code passes to
`rerun::Image::from_pixel_format`. -/
inductive PixelFormat
  | Y_U_V12_LimitedRange
  | NV12
  deriving DecidableEq, Repr

/-- The image artifacts the handlers build: `Image::from_pixel_format`,
`Image::new(..., rgb8(..))`, `Image::new(..., rgba8(..))`.  In every case the
payload bytes are passed through unchanged (the code slices `&data[..]`). -/
inductive ImageArtifact
  | fromPixelFormat (width height : Nat) (format : PixelFormat) (bytes : List Nat)
  | rgb8Image (width height : Nat) (bytes : List Nat)
  | rgba8Image (width height : Nat) (bytes : List Nat)
  deriving DecidableEq, Repr

/-- One observable effect on the rerun stream / log, in program order. -/
inductive SinkEvent
  | setTime (timeline : String) (t : ℚ)
  | logImage (entity_path : String) (art : ImageArtifact)
  | logText (entity_path : String) (body : String)
  | logEncodedImage (entity_path : String) (media_type : String) (data : List Nat)
  | warn (msg : String)
  | errorLog (msg : String)
  deriving DecidableEq, Repr

/-! ### Message envelope decoding (message_handlers.rs lines 58-60, 133-158) -/

/-- `timestamp_to_secs_f64`: `ts.seconds as f64 + ts.nanos as f64 / 1e9`. -/
def timestamp_to_secs_f64 (ts : Timestamp) : ℚ :=
  (ts.seconds : ℚ) + (ts.nanos : ℚ) / 1000000000

/-- `ensure_leading_slash`: keep the path if it starts with a slash
(`entity_path.starts_with('/')`, i.e. its first character is `/`), otherwise
prepend one (`format!("/{}", entity_path)`). -/
def ensure_leading_slash (entity_path : String) : String :=
  if entity_path.toList.head? = some '/' then entity_path else "/" ++ entity_path

/-- `process_header_and_set_time`, pure part.  `now` stands for
`get_current_timestamp_secs()` (wall clock).  Returns the `(entity_path,
header_time)` pair computed by the source; the accompanying
`rec.set_timestamp_secs_since_epoch("header_time", header_time)` side effect
is emitted by each handler as the first `SinkEvent` (see below). -/
def process_header_and_set_time (header : Option Header) (now : ℚ) : String × ℚ :=
  match header with
  | some h =>
      (ensure_leading_slash h.entity_path,
       match h.timestamp with
       | some ts => timestamp_to_secs_f64 ts
       | none => now)
  | none => ("/", now)

/-! ### ImageRawAnyHandler::handle_message (message_handlers.rs lines 532-601)

The decode step `self.encoder.decode(...)` is external (prost); the model
takes the decode outcome as input.  For a decoded message the function mirrors
the source: it computes the envelope, emits the timeline-cursor event, then
dispatches on the one-of field.  The `rgb888`, `rgba8888`, `yuv420` and `nv12`
arms hand the payload bytes unchanged to the sink (`Rgb888Handler`,
`Rgba8888Handler`, `Yuv420Handler`, `Nv12Handler`, lines 266-507); the
`yuv422`/`yuv444` arms only emit `log::warn!` and fall through to `Ok`; the
`None` arm returns the error string of line 594. -/
def ImageRawAnyHandler.handle_message (msg : ImageRawAny) (now : ℚ) :
    List SinkEvent × Except String Unit :=
  let pt := process_header_and_set_time msg.header now
  let entity_path := pt.1
  let pre : List SinkEvent := [SinkEvent.setTime "header_time" pt.2]
  match msg.image with
  | some (ImageVariant.rgb888 img) =>
      (pre ++ [SinkEvent.logImage entity_path
        (ImageArtifact.rgb8Image img.width img.height img.data)], Except.ok ())
  | some (ImageVariant.rgba8888 img) =>
      (pre ++ [SinkEvent.logImage entity_path
        (ImageArtifact.rgba8Image img.width img.height img.data)], Except.ok ())
  | some (ImageVariant.yuv420 img) =>
      (pre ++ [SinkEvent.logImage entity_path
        (ImageArtifact.fromPixelFormat img.width img.height
          PixelFormat.Y_U_V12_LimitedRange img.data)], Except.ok ())
  | some (ImageVariant.yuv422 _) =>
      (pre ++ [SinkEvent.warn "YUV422 format not yet implemented"], Except.ok ())
  | some (ImageVariant.yuv444 _) =>
      (pre ++ [SinkEvent.warn "YUV444 format not yet implemented"], Except.ok ())
  | some (ImageVariant.nv12 img) =>
      (pre ++ [SinkEvent.logImage entity_path
        (ImageArtifact.fromPixelFormat img.width img.height
          PixelFormat.NV12 img.data)], Except.ok ())
  | none => (pre, Except.error "No image format found in ImageRawAny message")

/-- The handler applied to a raw sample: protobuf decode happens first
(`self.encoder.decode(&sample.payload().to_bytes())?`), a decode failure
aborts before any sink effect. -/
def ImageRawAnyHandler.handle_sample (decoded : Except String ImageRawAny) (now : ℚ) :
    List SinkEvent × Except String Unit :=
  match decoded with
  | Except.error e => ([], Except.error e)
  | Except.ok msg => ImageRawAnyHandler.handle_message msg now

/-! ### The dispatch loop (main.rs lines 59-82 / 91-114)

`while let Ok(sample) = sub.recv_async().await { ...; if let Err(e) =
handler.handle_message(&sample, &rec) { log::error!("Error handling message:
{e}") } }`: each received item is handled once; an `Err` outcome only adds an
error-log line and the loop proceeds to the next receive.  The function is
structurally recursive, hence total: no handler outcome terminates it. -/
def dispatch_loop {α : Type} (handle : α → List SinkEvent × Except String Unit) :
    List α → List SinkEvent
  | [] => []
  | s :: rest =>
      let r := handle s
      r.1 ++
        (match r.2 with
         | Except.error e => [SinkEvent.errorLog ("Error handling message: " ++ e)]
         | Except.ok _ => []) ++
        dispatch_loop handle rest

/-- All events contributed by one message in the dispatch loop. -/
def per_message {α : Type} (handle : α → List SinkEvent × Except String Unit)
    (s : α) : List SinkEvent :=
  (handle s).1 ++
    (match (handle s).2 with
     | Except.error e => [SinkEvent.errorLog ("Error handling message: " ++ e)]
     | Except.ok _ => [])

/-! ### Topic-key extraction (message_handlers.rs lines 809-814)

The source runs the `regex` crate pattern
`.*/.*/.*/make87_messages-([^/]+)/.*` over the topic key and returns capture
group 1.  The `regex` crate matches with leftmost-first (backtracker-like)
semantics: the starting offset of the match proper is minimized first (the
implicit unanchored prefix scans over arbitrary characters, newline included),
and at that offset the pattern alternatives are explored in priority order, a
greedy `.*` preferring the longest extent first.  `.` does not match a newline
by default; the character class `[^/]` matches every character except `/`
(newline included); the trailing `.*` can match the empty string, so it
imposes no constraint.  The model below reproduces exactly that search order:
`starSplit` enumerates the candidate extents of one greedy `.*` followed by a
literal `/` in decreasing order of length (the consumed span must contain no
newline and end just before a `/`), three nested `starSplit`s mirror the three
`.*/ ` groups, `captureHere` matches the anchored tail
`make87_messages-([^/]+)/.*`, and `extractList` scans starting offsets in
increasing order. -/

/-- The literal `make87_messages-` of the pattern. -/
def litKey : List Char := "make87_messages-".toList

/-- Anchored match of `make87_messages-([^/]+)/.*`: the literal, then a
nonempty greedy run of non-`/` characters (the capture), then a `/`. -/
def captureHere (t : List Char) : Option (List Char) :=
  if t.take litKey.length = litKey then
    if (t.drop litKey.length).takeWhile (fun c => c != '/') ≠ [] ∧
        (t.drop litKey.length).dropWhile (fun c => c != '/') ≠ [] then
      some ((t.drop litKey.length).takeWhile (fun c => c != '/'))
    else none
  else none

/-- Candidate split points for one greedy `.*/`: indices `i` with `t[i] = '/'`
whose consumed span `t.take i` contains no newline, in decreasing order
(greedy: longest `.*` first). -/
def starSplits (t : List Char) : List Nat :=
  ((List.range t.length).filter
    (fun i => decide (t[i]? = some '/' ∧ '\n' ∉ t.take i))).reverse

/-- Match one greedy `.*/` followed by the continuation `g`, in backtracking
priority order. -/
def starSplit (g : List Char → Option (List Char)) (t : List Char) :
    Option (List Char) :=
  (starSplits t).findSome? (fun i => g (t.drop (i + 1)))

/-- Anchored match of `.*/make87_messages-([^/]+)/.*`. -/
def matchSeg3 : List Char → Option (List Char) := starSplit captureHere

/-- Anchored match of `.*/.*/make87_messages-([^/]+)/.*`. -/
def matchSeg2 : List Char → Option (List Char) := starSplit matchSeg3

/-- Anchored match of the full pattern `.*/.*/.*/make87_messages-([^/]+)/.*`. -/
def matchSeg1 : List Char → Option (List Char) := starSplit matchSeg2

/-- Unanchored leftmost search: try each starting offset in increasing order
and return the first capture found. -/
def extractList (s : List Char) : Option (List Char) :=
  (List.range (s.length + 1)).findSome? (fun k => matchSeg1 (s.drop k))

/-- `MessageTypeRegistry::extract_message_type_from_topic_key`. -/
def MessageTypeRegistry.extract_message_type_from_topic_key
    (topic_key : String) : Option String :=
  (extractList topic_key.toList).map (fun l => String.mk l)

/-! ### The handler registry (message_handlers.rs lines 756-815) -/

/-- The closed set of handler kinds the registry can produce, one per
registered factory. -/
inductive HandlerKind
  | textPlainText
  | imageCompressedJpeg
  | imageRawAny
  | imageYuv420
  | imageRgb888
  | imageRgba8888
  | boxes2DAxisAligned
  deriving DecidableEq, Repr

/-- The association built by `MessageTypeRegistry::new` (the seven `register`
calls, in source order).  The Rust `HashMap` keys are distinct string
literals, so an association list is an exact model. -/
def MessageTypeRegistry.handlers : List (String × HandlerKind) :=
  [("text-PlainText", HandlerKind.textPlainText),
   ("image-compressed-ImageJPEG", HandlerKind.imageCompressedJpeg),
   ("image-uncompressed-ImageRawAny", HandlerKind.imageRawAny),
   ("image-uncompressed-ImageYUV420", HandlerKind.imageYuv420),
   ("image-uncompressed-ImageRGB888", HandlerKind.imageRgb888),
   ("image-uncompressed-ImageRGBA8888", HandlerKind.imageRgba8888),
   ("detection-box-Boxes2DAxisAligned", HandlerKind.boxes2DAxisAligned)]

/-- `self.handlers.get(message_type)`. -/
def MessageTypeRegistry.lookup (message_type : String) : Option HandlerKind :=
  (MessageTypeRegistry.handlers.find? (fun p => p.1 == message_type)).map
    (fun p => p.2)

/-- `MessageTypeRegistry::create_handler_from_topic_key`: extract the message
type from the topic key, look it up, and invoke the factory. -/
def MessageTypeRegistry.create_handler_from_topic_key
    (topic_key : String) : Option HandlerKind :=
  (MessageTypeRegistry.extract_message_type_from_topic_key topic_key).bind
    MessageTypeRegistry.lookup

/-- The startup step of `main` (main.rs lines 54-57): resolve the handler once
from the subscriber key expression; `None` becomes the fatal
`"Unknown message type for topic: ..."` error via `ok_or_else(..)?`. -/
def main_startup (topic_key : String) : Except String HandlerKind :=
  match MessageTypeRegistry.create_handler_from_topic_key topic_key with
  | some h => Except.ok h
  | none => Except.error ("Unknown message type for topic: " ++ topic_key)

/-- `main` after subscription setup: handler resolution happens once, before
the receive loop; only when it succeeds does the dispatch loop run. -/
def run_main {α : Type} (topic_key : String)
    (sem : HandlerKind → α → List SinkEvent × Except String Unit)
    (samples : List α) : Except String (List SinkEvent) :=
  match main_startup topic_key with
  | Except.error e => Except.error e
  | Except.ok h => Except.ok (dispatch_loop (sem h) samples)

/-! ### Sink connection supervisor (main.rs lines 11-31 and 59-77) -/

/-- `rerun::sink::GrpcSinkConnectionState`. -/
inductive GrpcSinkConnectionState
  | connected
  | connecting
  | disconnected (reason : String)
  deriving DecidableEq, Repr

/-- `check_grpc_connection`: the probe result is delivered over a channel and
awaited with `recv_timeout(100ms)`; `none` models the timeout (or no gRPC
sink), which the source conservatively treats as disconnected.  `Connected`
and `Connecting` count as healthy, `Disconnected(_)` as unhealthy. -/
def check_grpc_connection (probe : Option GrpcSinkConnectionState) : Bool :=
  match probe with
  | some GrpcSinkConnectionState.connected => true
  | some GrpcSinkConnectionState.connecting => true
  | some (GrpcSinkConnectionState.disconnected _) => false
  | none => false

/-- `CONNECTION_CHECK_INTERVAL = Duration::from_secs(2)`, in seconds. -/
def CONNECTION_CHECK_INTERVAL : ℚ := 2

/-- The mutable locals of the main loop that the supervisor logic touches:
the current `RecordingStream` handle (`rec`, identified by a number) and
`last_connection_check`. -/
structure LoopState where
  recHandle : Nat
  lastCheck : ℚ
  deriving DecidableEq, Repr

/-- Observable supervisor actions of one loop iteration. -/
inductive SupervisorEvent
  | reconnectAttempt
  | reconnectSuccess
  | reconnectFailure (e : String)
  deriving DecidableEq, Repr

/-- Per-iteration environment: the wall clock at the check, the health probe
outcome, and what `rerun_grpc_interface.get_client_recording_stream` would
return if called. -/
structure IterInput where
  now : ℚ
  probe : Option GrpcSinkConnectionState
  reconnect : Except String Nat
  deriving Repr

/-- The connection-maintenance block at the top of each loop iteration
(main.rs lines 61-77): when the interval has elapsed, probe the sink; if
unhealthy, attempt one reconnect, replacing `rec` on success and keeping the
stale handle on failure; in every due case `last_connection_check` is reset to
now.  The block never fails: it always yields a state to continue with. -/
def connection_maintenance (st : LoopState) (inp : IterInput) :
    LoopState × List SupervisorEvent :=
  if CONNECTION_CHECK_INTERVAL ≤ inp.now - st.lastCheck then
    if check_grpc_connection inp.probe then
      ({ recHandle := st.recHandle, lastCheck := inp.now }, [])
    else
      match inp.reconnect with
      | Except.ok newRec =>
          ({ recHandle := newRec, lastCheck := inp.now },
           [SupervisorEvent.reconnectAttempt, SupervisorEvent.reconnectSuccess])
      | Except.error e =>
          ({ recHandle := st.recHandle, lastCheck := inp.now },
           [SupervisorEvent.reconnectAttempt, SupervisorEvent.reconnectFailure e])
  else (st, [])

/-- One full iteration of the receive loop: connection maintenance first, then
the message is handled with the (possibly replaced) handle; the handler
outcome is logged-and-dropped exactly as in `dispatch_loop`. -/
def loop_iteration {α : Type} (handle : Nat → α → List SinkEvent × Except String Unit)
    (st : LoopState) (inp : IterInput) (sample : α) :
    LoopState × List SupervisorEvent × List SinkEvent :=
  let m := connection_maintenance st inp
  let r := handle m.1.recHandle sample
  (m.1,
   m.2,
   r.1 ++ (match r.2 with
           | Except.error e => [SinkEvent.errorLog ("Error handling message: " ++ e)]
           | Except.ok _ => []))

/-- Iterated connection maintenance over a whole run of loop iterations. -/
def supervisor_run (st : LoopState) : List IterInput → LoopState × List SupervisorEvent
  | [] => (st, [])
  | inp :: rest =>
      let m := connection_maintenance st inp
      let r := supervisor_run m.1 rest
      (r.1, m.2 ++ r.2)

/-- A run of `n` health checks spaced exactly one polling interval apart, each
finding the sink disconnected and each reconnect attempt failing. -/
def failing_inputs (t0 : ℚ) (reason e : String) : Nat → List IterInput
  | 0 => []
  | n + 1 =>
      ⟨t0 + CONNECTION_CHECK_INTERVAL, some (GrpcSinkConnectionState.disconnected reason),
        Except.error e⟩ ::
        failing_inputs (t0 + CONNECTION_CHECK_INTERVAL) reason e n

/-! ### Pixel normalization engine (spec §4.3)

The YUV-to-RGB conversion routine itself is not under src/: the in-repo
converter was removed (comment at message_handlers.rs line 339, "Removed
expensive YUV420 to RGB conversion function") and the handlers now only tag
the unmodified payload bytes with `rerun::PixelFormat::Y_U_V12_LimitedRange`
resp. `::NV12`, delegating the actual conversion to the sink.  The conversion
definitions below are therefore modelled from the spec (§4.3). -/

/-- Row-major packing of a (height, width, channels) tensor into one
contiguous byte buffer: element (y, x, ch) lands at index
`(y*w + x)*c + ch`, i.e. row stride `w*c`, column stride `c`,
element stride 1. -/
def packTensor (h w c : Nat) (f : Nat → Nat → Nat → Nat) : List Nat :=
  (List.range h).flatMap (fun y =>
    (List.range w).flatMap (fun x =>
      (List.range c).map (fun ch => f y x ch)))

/-- Element view of a packed byte buffer as a (height, width, channels)
tensor with row stride `w*c`, column stride `c`, element stride 1
(out-of-range indices read as 0). -/
def tensorElem (d : List Nat) (w c : Nat) (y x ch : Nat) : Nat :=
  d.getD ((y * w + x) * c + ch) 0

/-- Modelled from the spec: the fixed limited-range BT.709 matrix of §4.3
(the documented default; no fallback chain).  Luma is renormalized from
[16, 235] and chroma centred at 128. -/
def yuvToRgb709Limited (y u v : ℚ) : ℚ × ℚ × ℚ :=
  let c := y - 16
  let d := u - 128
  let e := v - 128
  (1.164 * c + 1.793 * e,
   1.164 * c - 0.213 * d - 0.533 * e,
   1.164 * c + 2.112 * d)

/-- Round to nearest and clamp into one output byte. -/
def quantizeByte (q : ℚ) : Nat :=
  (max 0 (min 255 ⌊q + 1 / 2⌋)).toNat

/-- Select one channel of an (r, g, b) triple. -/
def rgbChannel (rgb : ℚ × ℚ × ℚ) : Nat → ℚ
  | 0 => rgb.1
  | 1 => rgb.2.1
  | _ => rgb.2.2

/-- Modelled from the spec: the Y plane of a YUV420 buffer is the first
`width*height` bytes. -/
def yPlane (w h : Nat) (d : List Nat) : List Nat := d.take (w * h)

/-- Modelled from the spec: the U plane is the next `width*height/4` bytes
after the Y plane. -/
def uPlane (w h : Nat) (d : List Nat) : List Nat :=
  (d.drop (w * h)).take (w * h / 4)

/-- Modelled from the spec: the V plane is the `width*height/4` bytes after
the U plane. -/
def vPlane (w h : Nat) (d : List Nat) : List Nat :=
  (d.drop (w * h + w * h / 4)).take (w * h / 4)

/-- Modelled from the spec: the RGB triple of pixel (x, y), from the Y sample
at stride `width` and the half-resolution U and V samples at stride
`width/2`, through the fixed BT.709 limited-range matrix. -/
def yuv420SampleAt (w h : Nat) (d : List Nat) (y x : Nat) : ℚ × ℚ × ℚ :=
  yuvToRgb709Limited
    ((yPlane w h d).getD (y * w + x) 0)
    ((uPlane w h d).getD (y / 2 * (w / 2) + x / 2) 0)
    ((vPlane w h d).getD (y / 2 * (w / 2) + x / 2) 0)

/-- Modelled from the spec: YUV420-to-RGB conversion producing one contiguous
RGB byte buffer with row stride `width*3`. -/
def yuv420_to_rgb (w h : Nat) (d : List Nat) : List Nat :=
  packTensor h w 3 (fun y x ch =>
    quantizeByte (rgbChannel (yuv420SampleAt w h d y x) ch))

/-- Even-indexed bytes of a list (NV12 de-interleave, U side). -/
def evenBytes : List Nat → List Nat
  | [] => []
  | [a] => [a]
  | a :: _ :: t => a :: evenBytes t

/-- Odd-indexed bytes of a list (NV12 de-interleave, V side). -/
def oddBytes : List Nat → List Nat
  | [] => []
  | [_] => []
  | _ :: b :: t => b :: oddBytes t

/-- Modelled from the spec: NV12-to-RGB conversion: de-interleave the second
plane (even-indexed bytes to U, odd-indexed to V) and apply the same YUV420
conversion to the rebuilt planar buffer. -/
def nv12_to_rgb (w h : Nat) (d : List Nat) : List Nat :=
  let uv := d.drop (w * h)
  yuv420_to_rgb w h (d.take (w * h) ++ evenBytes uv ++ oddBytes uv)

/-! ### Qualifying positions of the extraction pattern

The backtracking search of `extractList` is characterized below by
"qualifying positions": `p` is the start of a possible capture segment when
the tail pattern `make87_messages-([^/]+)/.*` matches at `p` and a separator
immediately precedes `p`, with (for the full pattern) two further separators
somewhere before that. -/

/-- One separator immediately before `p` and the capture tail matching at
`p`. -/
def Q1 (s : List Char) (p : Nat) : Prop :=
  1 ≤ p ∧ s[p - 1]? = some '/' ∧ (captureHere (s.drop p)).isSome

/-- `Q1` plus at least one further separator strictly before position
`p - 1`. -/
def Q2 (s : List Char) (p : Nat) : Prop :=
  Q1 s p ∧ ∃ i, i + 1 < p ∧ s[i]? = some '/'

/-- `Q1` plus at least two further separators strictly before position
`p - 1`: exactly the positions where the full pattern
`.*/.*/.*/make87_messages-([^/]+)/.*` can place its capture. -/
def Q3 (s : List Char) (p : Nat) : Prop :=
  Q1 s p ∧ ∃ i j, i < j ∧ j + 1 < p ∧ s[i]? = some '/' ∧ s[j]? = some '/'

/-! ### Theorems for the claims -/

/-- C3: `process_header_and_set_time` returns path `"/"` and the wall clock
when the header is absent; with a header it returns the header path with a
leading separator prepended when missing (unchanged when present) and the
header timestamp as `seconds + nanos/1e9` when present, else the wall clock;
and every `ImageRawAnyHandler` trace starts with the timeline-cursor event
under the fixed timeline name `"header_time"`, before any forwarded artifact.
The function is total (never fails): the listed equations cover all inputs. -/
theorem claim_C3_envelope :
    (∀ now : ℚ, process_header_and_set_time none now = ("/", now)) ∧
    (∀ (p : String) (ts : Timestamp) (now : ℚ),
      process_header_and_set_time (some ⟨p, some ts⟩) now =
        (ensure_leading_slash p, (ts.seconds : ℚ) + (ts.nanos : ℚ) / 1000000000)) ∧
    (∀ (p : String) (now : ℚ),
      process_header_and_set_time (some ⟨p, none⟩) now = (ensure_leading_slash p, now)) ∧
    (∀ p : String, p.toList.head? = some '/' → ensure_leading_slash p = p) ∧
    (∀ p : String, p.toList.head? ≠ some '/' → ensure_leading_slash p = "/" ++ p) ∧
    (∀ (msg : ImageRawAny) (now : ℚ),
      (ImageRawAnyHandler.handle_message msg now).1.head? =
        some (SinkEvent.setTime "header_time"
          (process_header_and_set_time msg.header now).2)) := by
  refine ⟨fun _ => rfl, fun _ _ _ => rfl, fun _ _ => rfl, ?_, ?_, ?_⟩
  · intro p hp
    unfold ensure_leading_slash
    rw [if_pos hp]
  · intro p hp
    unfold ensure_leading_slash
    rw [if_neg hp]
  · intro msg now
    rcases msg with ⟨header, image⟩
    rcases image with _ | v
    · rfl
    · cases v <;> rfl

/-- Closed witness for C3: the spec's own examples, a path without a leading
separator is normalized and a path with one is returned unchanged; a
headerless message maps to the root path and the wall clock. -/
theorem claim_C3_envelope_witness :
    ensure_leading_slash "cam0/front" = "/cam0/front" ∧
    ensure_leading_slash "/cam0/front" = "/cam0/front" ∧
    process_header_and_set_time none 5 = ("/", 5) := by
  refine ⟨?_, ?_, claim_C3_envelope.1 5⟩
  · have h := claim_C3_envelope.2.2.2.2.1 "cam0/front" (by decide)
    rw [h]
    decide
  · exact claim_C3_envelope.2.2.2.1 "/cam0/front" (by decide)

/-- C10: a decoded `ImageRawAny` message carrying none of the one-of image
variants makes the handler return the error
`"No image format found in ImageRawAny message"`; the timeline cursor has
already been set at that point (it is the sole emitted event), and no image
artifact is forwarded for that message. -/
theorem claim_C10_missing_variant (header : Option Header) (now : ℚ) :
    ImageRawAnyHandler.handle_message ⟨header, none⟩ now =
      ([SinkEvent.setTime "header_time" (process_header_and_set_time header now).2],
       Except.error "No image format found in ImageRawAny message") ∧
    ∀ (p : String) (a : ImageArtifact),
      SinkEvent.logImage p a ∉ (ImageRawAnyHandler.handle_message ⟨header, none⟩ now).1 := by
  refine ⟨rfl, ?_⟩
  intro p a
  simp [ImageRawAnyHandler.handle_message]

/-- C5: YUV422 and YUV444 payloads produce a distinct unsupported-format
warning (not an error outcome, unlike a decode failure, which produces
`Except.error` before any sink event), no artifact is forwarded, the handler
result is `ok` so the outcome is not fatal, and the dispatch loop goes on to
process every message around the unsupported one. -/
theorem claim_C5_unsupported_formats :
    (∀ (header : Option Header) (now : ℚ) (img : ImageYuv422),
      ImageRawAnyHandler.handle_message ⟨header, some (ImageVariant.yuv422 img)⟩ now =
        ([SinkEvent.setTime "header_time" (process_header_and_set_time header now).2,
          SinkEvent.warn "YUV422 format not yet implemented"], Except.ok ())) ∧
    (∀ (header : Option Header) (now : ℚ) (img : ImageYuv444),
      ImageRawAnyHandler.handle_message ⟨header, some (ImageVariant.yuv444 img)⟩ now =
        ([SinkEvent.setTime "header_time" (process_header_and_set_time header now).2,
          SinkEvent.warn "YUV444 format not yet implemented"], Except.ok ())) ∧
    (∀ (e : String) (now : ℚ),
      ImageRawAnyHandler.handle_sample (Except.error e) now = ([], Except.error e)) ∧
    (∀ (α : Type) (handle : α → List SinkEvent × Except String Unit)
        (pre post : List α) (s : α),
      dispatch_loop handle (pre ++ s :: post) =
        dispatch_loop handle pre ++ per_message handle s ++ dispatch_loop handle post) := by
  refine ⟨fun _ _ _ => rfl, fun _ _ _ => rfl, fun _ _ => rfl, ?_⟩
  intro α handle pre post s
  induction pre with
  | nil => simp [dispatch_loop, per_message]
  | cons x xs ih => simp [dispatch_loop, ih]

/-- C8: in the dispatch loop each received message is handled exactly once; a
handler error contributes only an error-log line for that message, which is
then skipped (no retry), and the loop continues with the remaining messages;
the loop is a total function of its input list, so no steady-state handler
outcome terminates it. -/
theorem claim_C8_loop_isolation :
    (∀ (α : Type) (handle : α → List SinkEvent × Except String Unit) (s : α)
        (rest : List α),
      dispatch_loop handle (s :: rest) =
        per_message handle s ++ dispatch_loop handle rest) ∧
    (∀ (α : Type) (handle : α → List SinkEvent × Except String Unit) (s : α)
        (e : String),
      (handle s).2 = Except.error e →
      per_message handle s =
        (handle s).1 ++ [SinkEvent.errorLog ("Error handling message: " ++ e)]) ∧
    (∀ (α : Type) (handle : α → List SinkEvent × Except String Unit)
        (xs ys : List α),
      dispatch_loop handle (xs ++ ys) =
        dispatch_loop handle xs ++ dispatch_loop handle ys) := by
  refine ⟨?_, ?_, ?_⟩
  · intro α handle s rest
    simp [dispatch_loop, per_message]
  · intro α handle s e he
    simp [per_message, he]
  · intro α handle xs ys
    induction xs with
    | nil => simp [dispatch_loop]
    | cons x xs ih => simp [dispatch_loop, ih]

/-- Closed witness for C8: a handler that always fails produces one error-log
line per message and the loop still visits both messages. -/
theorem claim_C8_loop_isolation_witness :
    per_message (fun _ : Unit => ([], Except.error "boom")) () =
      [SinkEvent.errorLog ("Error handling message: " ++ "boom")] ∧
    dispatch_loop (fun _ : Unit => ([], Except.error "boom")) ((() : Unit) :: [()]) =
      per_message (fun _ : Unit => ([], Except.error "boom")) () ++
        dispatch_loop (fun _ : Unit => ([], Except.error "boom")) [()] := by
  constructor
  · have h := claim_C8_loop_isolation.2.1 Unit
      (fun _ => ([], Except.error "boom")) () "boom" rfl
    simpa using h
  · exact claim_C8_loop_isolation.1 Unit (fun _ => ([], Except.error "boom")) () [()]

/-- C4 fails on the code: a YUV420 payload whose `pixel_data` is empty (thus
shorter than `width*height*3/2` for a 2x2 image) is not reported as a
malformed-payload error: the handler returns `ok` and forwards the
(undersized) buffer to the sink unchanged. -/
theorem claim_C4_counterexample :
    (ImageRawAnyHandler.handle_message
        ⟨none, some (ImageVariant.yuv420 ⟨2, 2, []⟩)⟩ 0).2 = Except.ok () ∧
    SinkEvent.logImage "/"
        (ImageArtifact.fromPixelFormat 2 2 PixelFormat.Y_U_V12_LimitedRange []) ∈
      (ImageRawAnyHandler.handle_message
        ⟨none, some (ImageVariant.yuv420 ⟨2, 2, []⟩)⟩ 0).1 ∧
    ([] : List Nat).length ≠ 2 * 2 * 3 / 2 := by
  refine ⟨rfl, ?_, by decide⟩
  simp [ImageRawAnyHandler.handle_message, process_header_and_set_time]

/-- C4 (amended): the handlers perform no payload-size validation at all: for
every raw-image payload of any of the four supported formats, whatever the
length of `pixel_data`, the handler forwards the payload bytes unchanged to
the sink and returns `ok`; handling is a total function (it never panics). -/
theorem claim_C4_amended :
    ∀ (header : Option Header) (now : ℚ) (w h : Nat) (d : List Nat),
      (ImageRawAnyHandler.handle_message ⟨header, some (ImageVariant.yuv420 ⟨w, h, d⟩)⟩ now =
        ([SinkEvent.setTime "header_time" (process_header_and_set_time header now).2,
          SinkEvent.logImage (process_header_and_set_time header now).1
            (ImageArtifact.fromPixelFormat w h PixelFormat.Y_U_V12_LimitedRange d)],
         Except.ok ())) ∧
      (ImageRawAnyHandler.handle_message ⟨header, some (ImageVariant.nv12 ⟨w, h, d⟩)⟩ now =
        ([SinkEvent.setTime "header_time" (process_header_and_set_time header now).2,
          SinkEvent.logImage (process_header_and_set_time header now).1
            (ImageArtifact.fromPixelFormat w h PixelFormat.NV12 d)],
         Except.ok ())) ∧
      (ImageRawAnyHandler.handle_message ⟨header, some (ImageVariant.rgb888 ⟨w, h, d⟩)⟩ now =
        ([SinkEvent.setTime "header_time" (process_header_and_set_time header now).2,
          SinkEvent.logImage (process_header_and_set_time header now).1
            (ImageArtifact.rgb8Image w h d)],
         Except.ok ())) ∧
      (ImageRawAnyHandler.handle_message ⟨header, some (ImageVariant.rgba8888 ⟨w, h, d⟩)⟩ now =
        ([SinkEvent.setTime "header_time" (process_header_and_set_time header now).2,
          SinkEvent.logImage (process_header_and_set_time header now).1
            (ImageArtifact.rgba8Image w h d)],
         Except.ok ())) := by
  intro header now w h d
  exact ⟨rfl, rfl, rfl, rfl⟩

/-- C6: a probe timeout or a `Disconnected` snapshot counts as unhealthy; on a
due polling interval with an unhealthy sink the loop makes exactly one
reconnect attempt, replacing the forwarding handle on success and keeping the
stale handle on failure; `last_connection_check` is reset in every due case so
the cadence is maintained; the message is handled regardless of the
supervisor outcome (consumption is never blocked and the outcome is never
fatal); and across a run of repeatedly failing reconnects, one attempt is made
per interval while the original handle is kept throughout. -/
theorem claim_C6_reconnect_supervision :
    (check_grpc_connection none = false ∧
     (∀ r, check_grpc_connection (some (GrpcSinkConnectionState.disconnected r)) = false) ∧
     check_grpc_connection (some GrpcSinkConnectionState.connected) = true ∧
     check_grpc_connection (some GrpcSinkConnectionState.connecting) = true) ∧
    (∀ (st : LoopState) (inp : IterInput),
      CONNECTION_CHECK_INTERVAL ≤ inp.now - st.lastCheck →
      check_grpc_connection inp.probe = false →
        (connection_maintenance st inp).2.count SupervisorEvent.reconnectAttempt = 1 ∧
        (∀ nr, inp.reconnect = Except.ok nr →
          (connection_maintenance st inp).1.recHandle = nr) ∧
        (∀ e, inp.reconnect = Except.error e →
          (connection_maintenance st inp).1.recHandle = st.recHandle) ∧
        (connection_maintenance st inp).1.lastCheck = inp.now) ∧
    (∀ (st : LoopState) (inp : IterInput),
      check_grpc_connection inp.probe = true →
      CONNECTION_CHECK_INTERVAL ≤ inp.now - st.lastCheck →
        connection_maintenance st inp =
          ({ recHandle := st.recHandle, lastCheck := inp.now }, [])) ∧
    (∀ (α : Type) (handle : Nat → α → List SinkEvent × Except String Unit)
        (st : LoopState) (inp : IterInput) (sample : α),
      (loop_iteration handle st inp sample).2.2 =
        per_message (handle (connection_maintenance st inp).1.recHandle) sample) ∧
    (∀ (r : Nat) (t0 : ℚ) (reason e : String) (n : Nat),
      (supervisor_run ⟨r, t0⟩ (failing_inputs t0 reason e n)).1 =
          ⟨r, t0 + CONNECTION_CHECK_INTERVAL * n⟩ ∧
      (supervisor_run ⟨r, t0⟩ (failing_inputs t0 reason e n)).2.count
          SupervisorEvent.reconnectAttempt = n) := by
  refine ⟨⟨rfl, fun _ => rfl, rfl, rfl⟩, ?_, ?_, ?_, ?_⟩
  · intro st inp hdue hfail
    unfold connection_maintenance
    rw [if_pos hdue]
    rcases hrc : inp.reconnect with e | nr <;>
      simp [hfail, hrc, List.count_cons]
  · intro st inp hok hdue
    unfold connection_maintenance
    rw [if_pos hdue]
    simp [hok]
  · intro α handle st inp sample
    rfl
  · intro r t0 reason e n
    induction n generalizing t0 with
    | zero => simp [failing_inputs, supervisor_run]
    | succ n ih =>
        have hstep :
            connection_maintenance ⟨r, t0⟩
              ⟨t0 + CONNECTION_CHECK_INTERVAL,
               some (GrpcSinkConnectionState.disconnected reason), Except.error e⟩ =
            (⟨r, t0 + CONNECTION_CHECK_INTERVAL⟩,
             [SupervisorEvent.reconnectAttempt, SupervisorEvent.reconnectFailure e]) := by
          unfold connection_maintenance
          rw [if_pos (by simp)]
          rfl
        have hrest := ih (t0 + CONNECTION_CHECK_INTERVAL)
        constructor
        · show (supervisor_run _ (_ :: _)).1 = _
          unfold supervisor_run
          rw [hstep]
          rw [hrest.1]
          have : t0 + CONNECTION_CHECK_INTERVAL + CONNECTION_CHECK_INTERVAL * (n : ℚ) =
              t0 + CONNECTION_CHECK_INTERVAL * ((n : ℚ) + 1) := by ring
          simp [this]
        · show (supervisor_run _ (_ :: _)).2.count _ = _
          unfold supervisor_run
          rw [hstep]
          simp [List.count_append, List.count_cons, hrest.2]

/-- Closed witness for C6: with the clock exactly one interval past the last
check and a `Disconnected` probe, a failing reconnect yields exactly one
attempt, keeps handle 7, and resets the check time. -/
theorem claim_C6_reconnect_supervision_witness :
    CONNECTION_CHECK_INTERVAL ≤ (2 : ℚ) - 0 ∧
    check_grpc_connection
      (some (GrpcSinkConnectionState.disconnected "connection refused")) = false ∧
    (connection_maintenance ⟨7, 0⟩
        ⟨2, some (GrpcSinkConnectionState.disconnected "connection refused"),
         Except.error "dial error"⟩).2.count SupervisorEvent.reconnectAttempt = 1 ∧
    (connection_maintenance ⟨7, 0⟩
        ⟨2, some (GrpcSinkConnectionState.disconnected "connection refused"),
         Except.error "dial error"⟩).1 = ⟨7, 2⟩ := by
  have hdue : CONNECTION_CHECK_INTERVAL ≤ (2 : ℚ) - 0 := by
    norm_num [CONNECTION_CHECK_INTERVAL]
  have h := claim_C6_reconnect_supervision.2.1 ⟨7, 0⟩
    ⟨2, some (GrpcSinkConnectionState.disconnected "connection refused"),
     Except.error "dial error"⟩ hdue rfl
  refine ⟨hdue, rfl, h.1, ?_⟩
  have h3 := h.2.2.1 "dial error" rfl
  have h4 := h.2.2.2
  rcases hcm : (connection_maintenance ⟨7, 0⟩
      ⟨2, some (GrpcSinkConnectionState.disconnected "connection refused"),
       Except.error "dial error"⟩).1 with ⟨rh, lc⟩
  rw [hcm] at h3 h4
  simp_all

/-- C1: `create_handler_from_topic_key` returns the registered handler exactly
when the extracted schema-type identifier is registered; it returns `none`
when the topic does not match the pattern or the identifier is unknown; `main`
turns that `none` into a fatal startup error before the dispatch loop runs
(no message is processed), while a successful resolution happens once and the
loop then runs with that one handler.  The registry holds exactly the seven
identifiers registered by `MessageTypeRegistry::new`. -/
theorem claim_C1_topic_resolution :
    (∀ (t mt : String) (h : HandlerKind),
      MessageTypeRegistry.extract_message_type_from_topic_key t = some mt →
      MessageTypeRegistry.lookup mt = some h →
      MessageTypeRegistry.create_handler_from_topic_key t = some h) ∧
    (∀ t : String,
      MessageTypeRegistry.extract_message_type_from_topic_key t = none →
      MessageTypeRegistry.create_handler_from_topic_key t = none) ∧
    (∀ (t mt : String),
      MessageTypeRegistry.extract_message_type_from_topic_key t = some mt →
      MessageTypeRegistry.lookup mt = none →
      MessageTypeRegistry.create_handler_from_topic_key t = none) ∧
    (∀ t : String,
      MessageTypeRegistry.create_handler_from_topic_key t = none →
      main_startup t = Except.error ("Unknown message type for topic: " ++ t)) ∧
    (∀ (t : String) (α : Type)
        (sem : HandlerKind → α → List SinkEvent × Except String Unit)
        (samples : List α),
      MessageTypeRegistry.create_handler_from_topic_key t = none →
      run_main t sem samples =
        Except.error ("Unknown message type for topic: " ++ t)) ∧
    (∀ (t : String) (h : HandlerKind) (α : Type)
        (sem : HandlerKind → α → List SinkEvent × Except String Unit)
        (samples : List α),
      MessageTypeRegistry.create_handler_from_topic_key t = some h →
      run_main t sem samples = Except.ok (dispatch_loop (sem h) samples)) ∧
    (MessageTypeRegistry.lookup "text-PlainText" = some HandlerKind.textPlainText ∧
     MessageTypeRegistry.lookup "image-compressed-ImageJPEG" =
       some HandlerKind.imageCompressedJpeg ∧
     MessageTypeRegistry.lookup "image-uncompressed-ImageRawAny" =
       some HandlerKind.imageRawAny ∧
     MessageTypeRegistry.lookup "image-uncompressed-ImageYUV420" =
       some HandlerKind.imageYuv420 ∧
     MessageTypeRegistry.lookup "image-uncompressed-ImageRGB888" =
       some HandlerKind.imageRgb888 ∧
     MessageTypeRegistry.lookup "image-uncompressed-ImageRGBA8888" =
       some HandlerKind.imageRgba8888 ∧
     MessageTypeRegistry.lookup "detection-box-Boxes2DAxisAligned" =
       some HandlerKind.boxes2DAxisAligned) ∧
    (∀ (mt : String) (h : HandlerKind),
      MessageTypeRegistry.lookup mt = some h →
      (mt, h) ∈ MessageTypeRegistry.handlers) := by
  refine ⟨?_, ?_, ?_, ?_, ?_, ?_, ?_, ?_⟩
  · intro t mt h he hl
    simp [MessageTypeRegistry.create_handler_from_topic_key, he, hl]
  · intro t he
    simp [MessageTypeRegistry.create_handler_from_topic_key, he]
  · intro t mt he hl
    simp [MessageTypeRegistry.create_handler_from_topic_key, he, hl]
  · intro t hc
    simp [main_startup, hc]
  · intro t α sem samples hc
    simp [run_main, main_startup, hc]
  · intro t h α sem samples hc
    simp [run_main, main_startup, hc]
  · exact ⟨rfl, rfl, rfl, rfl, rfl, rfl, rfl⟩
  · intro mt h hl
    unfold MessageTypeRegistry.lookup at hl
    rcases Option.map_eq_some'.mp hl with ⟨p, hfind, hp2⟩
    have hmem := List.mem_of_find?_eq_some hfind
    have hpred := List.find?_some hfind
    have h1 : p.1 = mt := by simpa using hpred
    have : (mt, h) = p := by
      rcases p with ⟨a, b⟩
      simp at h1 hp2
      simp [h1, hp2]
    rw [this]
    exact hmem

/-- Closed witness for C1: a topic naming a registered schema resolves to its
handler; a topic that cannot be routed fails startup with the fatal error. -/
theorem claim_C1_topic_resolution_witness :
    MessageTypeRegistry.create_handler_from_topic_key
        "a/b/c/make87_messages-text-PlainText/pub" = some HandlerKind.textPlainText ∧
    main_startup "a/b/c" =
      Except.error ("Unknown message type for topic: " ++ "a/b/c") := by
  constructor
  · exact claim_C1_topic_resolution.1 _ "text-PlainText" _ (by decide) (by decide)
  · exact claim_C1_topic_resolution.2.2.2.1 "a/b/c"
      (claim_C1_topic_resolution.2.1 "a/b/c" (by decide))

/-! ### Packed-tensor indexing lemmas (shared by C9 and C2) -/

/-- Reading `c` consecutive entries starting at `m` is a take of a drop. -/
theorem map_range_getD (l : List Nat) (m c : Nat) (h : m + c ≤ l.length) :
    (List.range c).map (fun ch => l.getD (m + ch) 0) = (l.drop m).take c := by
  induction c with
  | zero => simp
  | succ c ih =>
      rw [List.range_succ, List.map_append, ih (by omega), List.take_succ]
      congr 1
      have hc : m + c < l.length := by omega
      have h1 : (l.drop m)[c]? = l[m + c]? := List.getElem?_drop l m c
      have h2 : l[m + c]? = some l[m + c] := List.getElem?_eq_getElem hc
      simp [h1, h2]

/-- One row of a packed tensor read out of a flat buffer is a contiguous
chunk. -/
theorem row_chunk (l : List Nat) (c : Nat) :
    ∀ (w m : Nat), m + w * c ≤ l.length →
      (List.range w).flatMap
        (fun x => (List.range c).map (fun ch => l.getD (m + (x * c + ch)) 0)) =
      (l.drop m).take (w * c) := by
  intro w
  induction w with
  | zero => intro m _; simp
  | succ w ih =>
      intro m h
      have hsm : (w + 1) * c = w * c + c := Nat.succ_mul w c
      rw [List.range_succ, List.flatMap_append, ih m (by omega)]
      simp only [List.flatMap_cons, List.flatMap_nil, List.append_nil]
      have hidx : ∀ ch, m + (w * c + ch) = (m + w * c) + ch := by intro ch; omega
      simp only [hidx]
      rw [map_range_getD l (m + w * c) c (by omega)]
      rw [hsm, List.take_add]
      congr 1
      rw [List.drop_drop]

/-- A whole packed tensor read out of a flat buffer is a contiguous chunk. -/
theorem pack_chunk (l : List Nat) (w c : Nat) :
    ∀ (h m : Nat), m + h * (w * c) ≤ l.length →
      (List.range h).flatMap (fun y => (List.range w).flatMap (fun x =>
        (List.range c).map (fun ch => l.getD (m + ((y * w + x) * c + ch)) 0))) =
      (l.drop m).take (h * (w * c)) := by
  intro h
  induction h with
  | zero => intro m _; simp
  | succ h ih =>
      intro m hm
      have hsm : (h + 1) * (w * c) = h * (w * c) + w * c := Nat.succ_mul h (w * c)
      rw [List.range_succ, List.flatMap_append, ih m (by omega)]
      simp only [List.flatMap_cons, List.flatMap_nil, List.append_nil]
      have hidx : ∀ x ch, m + ((h * w + x) * c + ch) = (m + h * (w * c)) + (x * c + ch) := by
        intro x ch; ring
      simp only [hidx]
      rw [row_chunk l c w (m + h * (w * c)) (by omega)]
      rw [hsm, List.take_add]
      congr 1
      rw [List.drop_drop]

/-- Length of one packed row. -/
theorem length_row_flatMap (w c : Nat) (g : Nat → Nat → Nat) :
    ((List.range w).flatMap (fun x => (List.range c).map (fun i => g x i))).length = w * c := by
  induction w with
  | zero => simp
  | succ w ih =>
      rw [List.range_succ, List.flatMap_append]
      simp only [List.flatMap_cons, List.flatMap_nil, List.append_nil]
      simp [ih, Nat.succ_mul]

/-- Length of a whole packed tensor, unfolded form. -/
theorem length_pack_flatMap (h w c : Nat) (f : Nat → Nat → Nat → Nat) :
    ((List.range h).flatMap (fun y => (List.range w).flatMap (fun x =>
      (List.range c).map (fun ch => f y x ch)))).length = h * (w * c) := by
  induction h with
  | zero => simp
  | succ h ih =>
      rw [List.range_succ, List.flatMap_append]
      simp only [List.flatMap_cons, List.flatMap_nil, List.append_nil]
      rw [List.length_append, ih, length_row_flatMap w c (fun x i => f h x i), Nat.succ_mul]

/-- `packTensor` produces exactly `h*(w*c)` bytes, whatever the generator. -/
theorem length_packTensor (h w c : Nat) (f : Nat → Nat → Nat → Nat) :
    (packTensor h w c f).length = h * (w * c) := by
  unfold packTensor
  exact length_pack_flatMap h w c f

/-- The flat index of an in-range tensor element is in range. -/
theorem pixel_index_bound {y x ch w c h : Nat} (hy : y < h) (hx : x < w) (hch : ch < c) :
    (y * w + x) * c + ch < h * (w * c) := by
  have h1 : y * w + x + 1 ≤ h * w := by
    have h2 : (y + 1) * w ≤ h * w := Nat.mul_le_mul_right w hy
    have h3 : (y + 1) * w = y * w + w := Nat.succ_mul y w
    omega
  have h4 : (y * w + x + 1) * c ≤ (h * w) * c := Nat.mul_le_mul_right c h1
  have h5 : (y * w + x + 1) * c = (y * w + x) * c + c := Nat.succ_mul _ c
  have h6 : (h * w) * c = h * (w * c) := by ring
  omega

/-- Reading an element of one packed row at its flat offset. -/
theorem getD_row (w c : Nat) (g : Nat → Nat → Nat) (x ch : Nat)
    (hx : x < w) (hch : ch < c) :
    ((List.range w).flatMap (fun x => (List.range c).map (fun i => g x i))).getD
      (x * c + ch) 0 = g x ch := by
  induction w with
  | zero => exact absurd hx (Nat.not_lt_zero x)
  | succ w ih =>
      rw [List.range_succ, List.flatMap_append]
      simp only [List.flatMap_cons, List.flatMap_nil, List.append_nil]
      rcases Nat.lt_or_ge x w with hlt | hge
      · have hbound : x * c + ch <
            ((List.range w).flatMap (fun x => (List.range c).map (fun i => g x i))).length := by
          rw [length_row_flatMap]
          have h1 : (x + 1) * c ≤ w * c := Nat.mul_le_mul_right c hlt
          have h2 : (x + 1) * c = x * c + c := Nat.succ_mul x c
          omega
        rw [List.getD_append _ _ _ _ hbound]
        exact ih hlt
      · have hxw : x = w := by omega
        subst hxw
        have hlen : ((List.range x).flatMap
            (fun x => (List.range c).map (fun i => g x i))).length ≤ x * c + ch := by
          rw [length_row_flatMap]
          omega
        rw [List.getD_append_right _ _ _ _ hlen, length_row_flatMap]
        have hred : x * c + ch - x * c = ch := by omega
        rw [hred]
        simp [List.getElem?_range hch]

/-- Reading an element of a packed tensor at its flat offset recovers the
generator value: the packed layout has row stride `w*c`, column stride `c`
and element stride 1. -/
theorem packTensor_getD (h w c : Nat) (f : Nat → Nat → Nat → Nat) (y x ch : Nat)
    (hy : y < h) (hx : x < w) (hch : ch < c) :
    (packTensor h w c f).getD ((y * w + x) * c + ch) 0 = f y x ch := by
  unfold packTensor
  induction h with
  | zero => exact absurd hy (Nat.not_lt_zero y)
  | succ h ih =>
      rw [List.range_succ, List.flatMap_append]
      simp only [List.flatMap_cons, List.flatMap_nil, List.append_nil]
      rcases Nat.lt_or_ge y h with hlt | hge
      · have hbound : (y * w + x) * c + ch <
            ((List.range h).flatMap (fun y => (List.range w).flatMap (fun x =>
              (List.range c).map (fun ch => f y x ch)))).length := by
          rw [length_pack_flatMap]
          exact pixel_index_bound hlt hx hch
        rw [List.getD_append _ _ _ _ hbound]
        exact ih hlt
      · have hyh : y = h := by omega
        subst hyh
        have hlen : ((List.range y).flatMap (fun y => (List.range w).flatMap (fun x =>
            (List.range c).map (fun ch => f y x ch)))).length ≤ (y * w + x) * c + ch := by
          rw [length_pack_flatMap]
          have h1 : (y * w) * c ≤ (y * w + x) * c := Nat.mul_le_mul_right c (by omega)
          have h2 : (y * w) * c = y * (w * c) := by ring
          omega
        rw [List.getD_append_right _ _ _ _ hlen, length_pack_flatMap]
        have hred : (y * w + x) * c + ch - y * (w * c) = x * c + ch := by
          have h1 : (y * w + x) * c = y * (w * c) + x * c := by ring
          omega
        rw [hred]
        exact getD_row w c (fun a b => f y a b) x ch hx hch

/-- C9: for RGB888 and RGBA8888 the handler is a zero-copy reinterpretation:
the forwarded artifact carries exactly the input `pixel_data` bytes; and for a
size-consistent buffer, re-packing the (height, width, channels) tensor view
in the same packed layout (row stride `w*c`, column stride `c`, element
stride 1) reproduces the original bytes exactly, so the normalization is
lossless and idempotent. -/
theorem claim_C9_zero_copy :
    (∀ (header : Option Header) (now : ℚ) (w h : Nat) (d : List Nat),
      (ImageRawAnyHandler.handle_message
          ⟨header, some (ImageVariant.rgb888 ⟨w, h, d⟩)⟩ now).1 =
        [SinkEvent.setTime "header_time" (process_header_and_set_time header now).2,
         SinkEvent.logImage (process_header_and_set_time header now).1
           (ImageArtifact.rgb8Image w h d)]) ∧
    (∀ (header : Option Header) (now : ℚ) (w h : Nat) (d : List Nat),
      (ImageRawAnyHandler.handle_message
          ⟨header, some (ImageVariant.rgba8888 ⟨w, h, d⟩)⟩ now).1 =
        [SinkEvent.setTime "header_time" (process_header_and_set_time header now).2,
         SinkEvent.logImage (process_header_and_set_time header now).1
           (ImageArtifact.rgba8Image w h d)]) ∧
    (∀ (hgt wid : Nat) (d : List Nat), d.length = hgt * (wid * 3) →
      packTensor hgt wid 3 (tensorElem d wid 3) = d) ∧
    (∀ (hgt wid : Nat) (d : List Nat), d.length = hgt * (wid * 4) →
      packTensor hgt wid 4 (tensorElem d wid 4) = d) := by
  refine ⟨fun _ _ _ _ _ => rfl, fun _ _ _ _ _ => rfl, ?_, ?_⟩
  · intro hgt wid d hd
    have hp := pack_chunk d wid 3 hgt 0 (by omega)
    simp only [Nat.zero_add, List.drop_zero] at hp
    unfold packTensor tensorElem
    rw [hp, ← hd, List.take_length]
  · intro hgt wid d hd
    have hp := pack_chunk d wid 4 hgt 0 (by omega)
    simp only [Nat.zero_add, List.drop_zero] at hp
    unfold packTensor tensorElem
    rw [hp, ← hd, List.take_length]

/-- Closed witness for C9: a 1x2 RGB byte buffer survives the tensor
round-trip unchanged. -/
theorem claim_C9_zero_copy_witness :
    ([10, 20, 30, 40, 50, 60] : List Nat).length = 1 * (2 * 3) ∧
    packTensor 1 2 3 (tensorElem [10, 20, 30, 40, 50, 60] 2 3) =
      [10, 20, 30, 40, 50, 60] :=
  ⟨by decide, claim_C9_zero_copy.2.2.1 1 2 [10, 20, 30, 40, 50, 60] (by decide)⟩

/-! ### Plane-indexing lemmas for the modelled conversion (C2) -/

/-- Reading inside the taken prefix ignores the truncation. -/
theorem getD_take_lt (l : List Nat) (n i : Nat) (h : i < n) :
    (l.take n).getD i 0 = l.getD i 0 := by
  simp [List.getElem?_take_of_lt h]

/-- Reading a dropped suffix shifts the index. -/
theorem getD_drop' (l : List Nat) (m i : Nat) :
    (l.drop m).getD i 0 = l.getD (m + i) 0 := by
  simp [List.getElem?_drop]

/-- The flat luma index of an in-range pixel lies inside the Y plane. -/
theorem luma_index_bound {y x w h : Nat} (hy : y < h) (hx : x < w) :
    y * w + x < w * h := by
  have h1 : (y + 1) * w ≤ h * w := Nat.mul_le_mul_right w hy
  have h2 : (y + 1) * w = y * w + w := Nat.succ_mul y w
  have h3 : h * w = w * h := by ring
  omega

/-- The half-resolution chroma index of an in-range pixel lies inside a
`(w/2)*(h/2)` plane. -/
theorem chroma_index_bound {y x a b : Nat} (hy : y < 2 * b) (hx : x < 2 * a) :
    y / 2 * a + x / 2 < a * b := by
  have hp : y / 2 < b := by omega
  have hq : x / 2 < a := by omega
  calc y / 2 * a + x / 2 < y / 2 * a + a := by omega
    _ = (y / 2 + 1) * a := (Nat.succ_mul _ _).symm
    _ ≤ b * a := Nat.mul_le_mul_right a hp
    _ = a * b := by ring

/-- De-interleaving, U side: entry `k` of the even bytes is entry `2k` of the
interleaved buffer. -/
theorem evenBytes_getD : ∀ (l : List Nat) (k : Nat),
    (evenBytes l).getD k 0 = l.getD (2 * k) 0
  | [], k => by simp [evenBytes]
  | [a], 0 => by simp [evenBytes]
  | [a], (k + 1) => by
      have h : 2 * (k + 1) = 2 * k + 1 + 1 := by omega
      simp only [evenBytes, h, List.getD_cons_succ]
      simp
  | a :: b :: t, 0 => by simp [evenBytes]
  | a :: b :: t, (k + 1) => by
      have h : 2 * (k + 1) = 2 * k + 1 + 1 := by omega
      simp only [evenBytes, h, List.getD_cons_succ]
      exact evenBytes_getD t k

/-- De-interleaving, V side: entry `k` of the odd bytes is entry `2k+1` of the
interleaved buffer. -/
theorem oddBytes_getD : ∀ (l : List Nat) (k : Nat),
    (oddBytes l).getD k 0 = l.getD (2 * k + 1) 0
  | [], k => by simp [oddBytes]
  | [a], 0 => by simp [oddBytes]
  | [a], (k + 1) => by
      simp [oddBytes]
  | a :: b :: t, 0 => by simp [oddBytes]
  | a :: b :: t, (k + 1) => by
      have h : 2 * (k + 1) + 1 = 2 * k + 1 + 1 + 1 := by omega
      simp only [oddBytes, h, List.getD_cons_succ]
      exact oddBytes_getD t k

/-- Length of the even-byte plane. -/
theorem length_evenBytes : ∀ (l : List Nat), (evenBytes l).length = (l.length + 1) / 2
  | [] => by simp [evenBytes]
  | [a] => by simp [evenBytes]
  | a :: b :: t => by
      simp only [evenBytes, List.length_cons, length_evenBytes t]
      omega

/-- Length of the odd-byte plane. -/
theorem length_oddBytes : ∀ (l : List Nat), (oddBytes l).length = l.length / 2
  | [] => by simp [oddBytes]
  | [a] => by simp [oddBytes]
  | a :: b :: t => by
      simp only [oddBytes, List.length_cons, length_oddBytes t]
      omega

/-- The modelled YUV420 conversion output has exactly `w*h*3` bytes. -/
theorem yuv420_to_rgb_length (w h : Nat) (d : List Nat) :
    (yuv420_to_rgb w h d).length = w * h * 3 := by
  unfold yuv420_to_rgb
  rw [length_packTensor]
  ring

/-- The modelled NV12 conversion output has exactly `w*h*3` bytes. -/
theorem nv12_to_rgb_length (w h : Nat) (d : List Nat) :
    (nv12_to_rgb w h d).length = w * h * 3 :=
  yuv420_to_rgb_length w h _

/-- Pixel formula of the modelled YUV420 conversion: output byte
`(y*w + x)*3 + ch` comes from the fixed BT.709 limited-range matrix applied to
the Y sample at `y*w + x` (stride `w`), and the U and V samples at
`(y/2)*(w/2) + x/2` inside the planes starting at offsets `w*h` and
`w*h + w*h/4` (stride `w/2`). -/
theorem yuv420_pixel_formula (w h : Nat) (d : List Nat) (y x ch : Nat)
    (hw : 2 ∣ w) (hh : 2 ∣ h) (hy : y < h) (hx : x < w) (hch : ch < 3) :
    (yuv420_to_rgb w h d).getD ((y * w + x) * 3 + ch) 0 =
      quantizeByte (rgbChannel (yuvToRgb709Limited
        (d.getD (y * w + x) 0)
        (d.getD (w * h + (y / 2 * (w / 2) + x / 2)) 0)
        (d.getD (w * h + w * h / 4 + (y / 2 * (w / 2) + x / 2)) 0)) ch) := by
  obtain ⟨a, rfl⟩ := hw
  obtain ⟨b, rfl⟩ := hh
  unfold yuv420_to_rgb
  rw [packTensor_getD _ _ _ _ y x ch hy hx hch]
  simp only [yuv420SampleAt, yPlane, uPlane, vPlane]
  have hw2 : 2 * a / 2 = a := by omega
  have hprod : 2 * a * (2 * b) = 4 * (a * b) := by ring
  have hq : 2 * a * (2 * b) / 4 = a * b := by omega
  have hk : y / 2 * (2 * a / 2) + x / 2 < 2 * a * (2 * b) / 4 := by
    rw [hw2, hq]
    exact chroma_index_bound hy hx
  have hyidx : y * (2 * a) + x < 2 * a * (2 * b) := luma_index_bound hy hx
  rw [getD_take_lt d _ _ hyidx,
      getD_take_lt _ _ _ hk, getD_drop',
      getD_take_lt _ _ _ hk, getD_drop']

/-- Pixel formula of the modelled NV12 conversion: same as YUV420 except that
the U sample is the even-indexed byte `w*h + 2k` and the V sample the
odd-indexed byte `w*h + 2k + 1` of the interleaved second plane, with
`k = (y/2)*(w/2) + x/2`. -/
theorem nv12_pixel_formula (w h : Nat) (d : List Nat) (y x ch : Nat)
    (hw : 2 ∣ w) (hh : 2 ∣ h) (hd : d.length = w * h * 3 / 2)
    (hy : y < h) (hx : x < w) (hch : ch < 3) :
    (nv12_to_rgb w h d).getD ((y * w + x) * 3 + ch) 0 =
      quantizeByte (rgbChannel (yuvToRgb709Limited
        (d.getD (y * w + x) 0)
        (d.getD (w * h + 2 * (y / 2 * (w / 2) + x / 2)) 0)
        (d.getD (w * h + 2 * (y / 2 * (w / 2) + x / 2) + 1) 0)) ch) := by
  obtain ⟨a, rfl⟩ := hw
  obtain ⟨b, rfl⟩ := hh
  unfold nv12_to_rgb
  rw [yuv420_pixel_formula _ _ _ y x ch ⟨a, rfl⟩ ⟨b, rfl⟩ hy hx hch]
  have hprod : 2 * a * (2 * b) = 4 * (a * b) := by ring
  have hP3 : 2 * a * (2 * b) * 3 = 2 * (6 * (a * b)) := by ring
  have hlen : d.length = 6 * (a * b) := by omega
  have hq : 2 * a * (2 * b) / 4 = a * b := by omega
  have hlenuv : (d.drop (2 * a * (2 * b))).length = 2 * (a * b) := by
    rw [List.length_drop]
    omega
  have hlenE : (evenBytes (d.drop (2 * a * (2 * b)))).length = a * b := by
    rw [length_evenBytes, hlenuv]
    omega
  have hlenT : (d.take (2 * a * (2 * b))).length = 2 * a * (2 * b) :=
    List.length_take_of_le (by omega)
  have hk : y / 2 * (2 * a / 2) + x / 2 < a * b := by
    rw [show 2 * a / 2 = a from by omega]
    exact chroma_index_bound hy hx
  have hyidx : y * (2 * a) + x < 2 * a * (2 * b) := luma_index_bound hy hx
  have eY : (d.take (2 * a * (2 * b)) ++ evenBytes (d.drop (2 * a * (2 * b))) ++
        oddBytes (d.drop (2 * a * (2 * b)))).getD (y * (2 * a) + x) 0 =
      d.getD (y * (2 * a) + x) 0 := by
    rw [List.append_assoc,
        List.getD_append _ _ _ _ (by rw [hlenT]; exact hyidx)]
    exact getD_take_lt d _ _ hyidx
  have eU : (d.take (2 * a * (2 * b)) ++ evenBytes (d.drop (2 * a * (2 * b))) ++
        oddBytes (d.drop (2 * a * (2 * b)))).getD
          (2 * a * (2 * b) + (y / 2 * (2 * a / 2) + x / 2)) 0 =
      d.getD (2 * a * (2 * b) + 2 * (y / 2 * (2 * a / 2) + x / 2)) 0 := by
    rw [List.append_assoc,
        List.getD_append_right _ _ _ _ (by rw [hlenT]; omega),
        hlenT,
        show 2 * a * (2 * b) + (y / 2 * (2 * a / 2) + x / 2) - 2 * a * (2 * b) =
          y / 2 * (2 * a / 2) + x / 2 from by omega,
        List.getD_append _ _ _ _ (by rw [hlenE]; exact hk),
        evenBytes_getD, getD_drop']
  have eV : (d.take (2 * a * (2 * b)) ++ evenBytes (d.drop (2 * a * (2 * b))) ++
        oddBytes (d.drop (2 * a * (2 * b)))).getD
          (2 * a * (2 * b) + 2 * a * (2 * b) / 4 +
            (y / 2 * (2 * a / 2) + x / 2)) 0 =
      d.getD (2 * a * (2 * b) + 2 * (y / 2 * (2 * a / 2) + x / 2) + 1) 0 := by
    rw [List.append_assoc,
        List.getD_append_right _ _ _ _ (by rw [hlenT]; omega),
        hlenT,
        show 2 * a * (2 * b) + 2 * a * (2 * b) / 4 + (y / 2 * (2 * a / 2) + x / 2) -
            2 * a * (2 * b) = a * b + (y / 2 * (2 * a / 2) + x / 2) from by omega,
        List.getD_append_right _ _ _ _ (by rw [hlenE]; omega),
        hlenE,
        show a * b + (y / 2 * (2 * a / 2) + x / 2) - a * b =
          y / 2 * (2 * a / 2) + x / 2 from by omega,
        oddBytes_getD, getD_drop',
        show 2 * a * (2 * b) + (2 * (y / 2 * (2 * a / 2) + x / 2) + 1) =
          2 * a * (2 * b) + 2 * (y / 2 * (2 * a / 2) + x / 2) + 1 from by omega]
  rw [eY, eU, eV]

/-- C2 (spec-modelled): the YUV420 conversion slices a Y plane of the first
`w*h` bytes (stride `w`) and U and V planes of `w*h/4` bytes each at offsets
`w*h` and `w*h + w*h/4` (stride `w/2`), maps each pixel through the fixed
limited-range BT.709 matrix, and produces one contiguous RGB buffer of
`w*h*3` bytes with row stride `w*3`; the NV12 conversion first de-interleaves
the second plane (even-indexed bytes to U, odd-indexed to V) and then applies
the same conversion. -/
theorem claim_C2_pixel_format_conversion :
    (∀ (w h : Nat) (d : List Nat), (yuv420_to_rgb w h d).length = w * h * 3) ∧
    (∀ (w h : Nat) (d : List Nat) (y x ch : Nat),
      2 ∣ w → 2 ∣ h → y < h → x < w → ch < 3 →
      (yuv420_to_rgb w h d).getD ((y * w + x) * 3 + ch) 0 =
        quantizeByte (rgbChannel (yuvToRgb709Limited
          (d.getD (y * w + x) 0)
          (d.getD (w * h + (y / 2 * (w / 2) + x / 2)) 0)
          (d.getD (w * h + w * h / 4 + (y / 2 * (w / 2) + x / 2)) 0)) ch)) ∧
    (∀ (l : List Nat) (k : Nat), (evenBytes l).getD k 0 = l.getD (2 * k) 0) ∧
    (∀ (l : List Nat) (k : Nat), (oddBytes l).getD k 0 = l.getD (2 * k + 1) 0) ∧
    (∀ (w h : Nat) (d : List Nat), (nv12_to_rgb w h d).length = w * h * 3) ∧
    (∀ (w h : Nat) (d : List Nat) (y x ch : Nat),
      2 ∣ w → 2 ∣ h → d.length = w * h * 3 / 2 → y < h → x < w → ch < 3 →
      (nv12_to_rgb w h d).getD ((y * w + x) * 3 + ch) 0 =
        quantizeByte (rgbChannel (yuvToRgb709Limited
          (d.getD (y * w + x) 0)
          (d.getD (w * h + 2 * (y / 2 * (w / 2) + x / 2)) 0)
          (d.getD (w * h + 2 * (y / 2 * (w / 2) + x / 2) + 1) 0)) ch)) :=
  ⟨yuv420_to_rgb_length,
   fun w h d y x ch hw hh hy hx hch => yuv420_pixel_formula w h d y x ch hw hh hy hx hch,
   evenBytes_getD,
   oddBytes_getD,
   nv12_to_rgb_length,
   fun w h d y x ch hw hh hd hy hx hch =>
     nv12_pixel_formula w h d y x ch hw hh hd hy hx hch⟩

/-- Closed witness for C2: the pixel formulas instantiated on a concrete 2x2
six-byte buffer at pixel (0,0), channel 0. -/
theorem claim_C2_pixel_format_conversion_witness :
    (2 : Nat) ∣ 2 ∧ (0 : Nat) < 2 ∧ (0 : Nat) < 3 ∧
    ([16, 32, 48, 64, 100, 200] : List Nat).length = 2 * 2 * 3 / 2 ∧
    (yuv420_to_rgb 2 2 [16, 32, 48, 64, 100, 200]).getD ((0 * 2 + 0) * 3 + 0) 0 =
      quantizeByte (rgbChannel (yuvToRgb709Limited
        (([16, 32, 48, 64, 100, 200] : List Nat).getD (0 * 2 + 0) 0)
        (([16, 32, 48, 64, 100, 200] : List Nat).getD
          (2 * 2 + (0 / 2 * (2 / 2) + 0 / 2)) 0)
        (([16, 32, 48, 64, 100, 200] : List Nat).getD
          (2 * 2 + 2 * 2 / 4 + (0 / 2 * (2 / 2) + 0 / 2)) 0)) 0) ∧
    (nv12_to_rgb 2 2 [16, 32, 48, 64, 100, 200]).getD ((0 * 2 + 0) * 3 + 0) 0 =
      quantizeByte (rgbChannel (yuvToRgb709Limited
        (([16, 32, 48, 64, 100, 200] : List Nat).getD (0 * 2 + 0) 0)
        (([16, 32, 48, 64, 100, 200] : List Nat).getD
          (2 * 2 + 2 * (0 / 2 * (2 / 2) + 0 / 2)) 0)
        (([16, 32, 48, 64, 100, 200] : List Nat).getD
          (2 * 2 + 2 * (0 / 2 * (2 / 2) + 0 / 2) + 1) 0)) 0) :=
  ⟨⟨1, rfl⟩, by decide, by decide, by decide,
   claim_C2_pixel_format_conversion.2.1 2 2 [16, 32, 48, 64, 100, 200] 0 0 0
     ⟨1, rfl⟩ ⟨1, rfl⟩ (by decide) (by decide) (by decide),
   claim_C2_pixel_format_conversion.2.2.2.2.2 2 2 [16, 32, 48, 64, 100, 200] 0 0 0
     ⟨1, rfl⟩ ⟨1, rfl⟩ (by decide) (by decide) (by decide) (by decide)⟩

/-! ### Characterization of the greedy pattern search (C7) -/

/-- A `findSome?` over a strictly decreasing list of candidates succeeds with
`b` exactly when some candidate yields `b` and every larger candidate yields
nothing. -/
theorem findSome?_desc_eq_some {α : Type} (f : Nat → Option α) :
    ∀ (l : List Nat), l.Pairwise (fun a b => b < a) → ∀ (b : α),
      (l.findSome? f = some b ↔
        ∃ i ∈ l, f i = some b ∧ ∀ j ∈ l, i < j → f j = none)
  | [], _, b => by simp
  | hd :: tl, hl, b => by
      have hpc := List.pairwise_cons.mp hl
      have ih := findSome?_desc_eq_some f tl hpc.2 b
      cases hfhd : f hd with
      | some c =>
          rw [List.findSome?_cons_of_isSome _ (by simp [hfhd]), hfhd]
          constructor
          · intro h
            refine ⟨hd, List.mem_cons_self hd tl, hfhd.trans h, ?_⟩
            intro j hj hlt
            rcases List.mem_cons.mp hj with rfl | hjtl
            · omega
            · exact absurd (hpc.1 j hjtl) (by omega)
          · rintro ⟨i, hi, hfi, hmax⟩
            rcases List.mem_cons.mp hi with rfl | hitl
            · exact hfhd.symm.trans hfi
            · have hihd : i < hd := hpc.1 i hitl
              have hnone := hmax hd (List.mem_cons_self hd tl) hihd
              rw [hnone] at hfhd
              cases hfhd
      | none =>
          rw [List.findSome?_cons_of_isNone _ (by simp [hfhd]), ih]
          constructor
          · rintro ⟨i, hi, hfi, hmax⟩
            refine ⟨i, List.mem_cons_of_mem hd hi, hfi, ?_⟩
            intro j hj hlt
            rcases List.mem_cons.mp hj with rfl | hjtl
            · exact hfhd
            · exact hmax j hjtl hlt
          · rintro ⟨i, hi, hfi, hmax⟩
            rcases List.mem_cons.mp hi with rfl | hitl
            · rw [hfi] at hfhd
              cases hfhd
            · exact ⟨i, hitl, hfi,
                fun j hj hlt => hmax j (List.mem_cons_of_mem hd hj) hlt⟩

/-- In a newline-free string the split candidates of one greedy `.*/` are
exactly the separator positions. -/
theorem mem_starSplits {t : List Char} {i : Nat} (hnl : '\n' ∉ t) :
    i ∈ starSplits t ↔ t[i]? = some '/' := by
  unfold starSplits
  rw [List.mem_reverse, List.mem_filter, List.mem_range]
  constructor
  · rintro ⟨_, h⟩
    exact (of_decide_eq_true h).1
  · intro h
    have hlt : i < t.length := by
      by_contra hge
      rw [List.getElem?_eq_none (by omega)] at h
      cases h
    exact ⟨hlt, decide_eq_true ⟨h, fun hmem => hnl (List.take_subset i t hmem)⟩⟩

/-- The split candidates are enumerated in strictly decreasing order (greedy
priority). -/
theorem pairwise_starSplits (t : List Char) :
    (starSplits t).Pairwise (fun a b => b < a) := by
  unfold starSplits
  rw [List.pairwise_reverse]
  exact (List.pairwise_lt_range t.length).filter _

/-- Greedy-priority characterization of one `.*/` split: the continuation
succeeds at some separator and fails at every later separator. -/
theorem starSplit_char (g : List Char → Option (List Char)) (t : List Char)
    (hnl : '\n' ∉ t) (id : List Char) :
    starSplit g t = some id ↔
      ∃ i, t[i]? = some '/' ∧ g (t.drop (i + 1)) = some id ∧
        ∀ j, t[j]? = some '/' → i < j → g (t.drop (j + 1)) = none := by
  unfold starSplit
  rw [findSome?_desc_eq_some _ _ (pairwise_starSplits t) id]
  constructor
  · rintro ⟨i, hi, hfi, hmax⟩
    exact ⟨i, (mem_starSplits hnl).mp hi, hfi,
      fun j hj hij => hmax j ((mem_starSplits hnl).mpr hj) hij⟩
  · rintro ⟨i, hi, hfi, hmax⟩
    exact ⟨i, (mem_starSplits hnl).mpr hi, hfi,
      fun j hj hij => hmax j ((mem_starSplits hnl).mp hj) hij⟩

/-- One `.*/` split fails exactly when the continuation fails after every
separator. -/
theorem starSplit_eq_none (g : List Char → Option (List Char)) (t : List Char)
    (hnl : '\n' ∉ t) :
    starSplit g t = none ↔ ∀ i, t[i]? = some '/' → g (t.drop (i + 1)) = none := by
  unfold starSplit
  rw [List.findSome?_eq_none_iff]
  constructor
  · intro h i hi
    exact h i ((mem_starSplits hnl).mpr hi)
  · intro h i hi
    exact h i ((mem_starSplits hnl).mp hi)

/-- Shifting a `Q1` position out of a dropped prefix. -/
theorem Q1_drop {s : List Char} {a p : Nat} (hp : 1 ≤ p) :
    Q1 (s.drop a) p ↔ Q1 s (a + p) := by
  unfold Q1
  rw [List.getElem?_drop, List.drop_drop,
      show a + (p - 1) = a + p - 1 from by omega]
  constructor
  · rintro ⟨_, h2, h3⟩
    exact ⟨by omega, h2, h3⟩
  · rintro ⟨_, h2, h3⟩
    exact ⟨hp, h2, h3⟩

/-- Shifting a `Q2` position out of a dropped prefix. -/
theorem Q2_drop {s : List Char} {a p : Nat} (hp : 1 ≤ p) :
    Q2 (s.drop a) p ↔
      (Q1 s (a + p) ∧ ∃ j, a ≤ j ∧ j + 1 < a + p ∧ s[j]? = some '/') := by
  unfold Q2
  rw [Q1_drop hp]
  constructor
  · rintro ⟨h1, i, hilt, hisl⟩
    rw [List.getElem?_drop] at hisl
    exact ⟨h1, a + i, by omega, by omega, hisl⟩
  · rintro ⟨h1, j, haj, hjlt, hjsl⟩
    refine ⟨h1, j - a, by omega, ?_⟩
    rw [List.getElem?_drop, show a + (j - a) = j from by omega]
    exact hjsl

/-- A `Q3` position of a suffix is a `Q3` position of the whole string. -/
theorem Q3_drop_abs {s : List Char} {k p : Nat} (hp : 1 ≤ p) :
    Q3 (s.drop k) p → Q3 s (k + p) := by
  rintro ⟨hq1, i, j, hij, hjlt, hisl, hjsl⟩
  rw [List.getElem?_drop] at hisl hjsl
  exact ⟨(Q1_drop hp).mp hq1, k + i, k + j, by omega, by omega, hisl, hjsl⟩

/-- The tail matcher of the last pattern group fails exactly when no `Q1`
position exists. -/
theorem matchSeg3_eq_none {t : List Char} (hnl : '\n' ∉ t) :
    matchSeg3 t = none ↔ ∀ p, ¬ Q1 t p := by
  unfold matchSeg3
  rw [starSplit_eq_none captureHere t hnl]
  constructor
  · rintro h p ⟨hp1, hpsl, hpcap⟩
    have hnone := h (p - 1) hpsl
    rw [show p - 1 + 1 = p from by omega] at hnone
    rw [hnone] at hpcap
    cases hpcap
  · intro h i hisl
    by_contra hne
    have hsome : (captureHere (t.drop (i + 1))).isSome :=
      Option.ne_none_iff_isSome.mp hne
    exact h (i + 1) ⟨by omega, by simpa using hisl, hsome⟩

/-- When the tail matcher succeeds, its capture sits at the greatest `Q1`
position. -/
theorem matchSeg3_eq_some {t : List Char} (hnl : '\n' ∉ t) {id : List Char} :
    matchSeg3 t = some id →
      ∃ p, Q1 t p ∧ captureHere (t.drop p) = some id ∧ ∀ q, Q1 t q → q ≤ p := by
  intro h
  unfold matchSeg3 at h
  rw [starSplit_char captureHere t hnl id] at h
  rcases h with ⟨i, hisl, hcap, hmax⟩
  refine ⟨i + 1, ⟨by omega, by simpa using hisl, by simp [hcap]⟩, hcap, ?_⟩
  rintro q ⟨hq1, hqsl, hqcap⟩
  by_contra hgt
  push_neg at hgt
  have hnone := hmax (q - 1) hqsl (by omega)
  rw [show q - 1 + 1 = q from by omega] at hnone
  rw [hnone] at hqcap
  cases hqcap

/-- The two-group tail fails exactly when no `Q2` position exists. -/
theorem matchSeg2_eq_none {t : List Char} (hnl : '\n' ∉ t) :
    matchSeg2 t = none ↔ ∀ p, ¬ Q2 t p := by
  unfold matchSeg2
  rw [starSplit_eq_none matchSeg3 t hnl]
  constructor
  · rintro h p ⟨hq1, i, hilt, hisl⟩
    have hnl' : '\n' ∉ t.drop (i + 1) := fun hm => hnl (List.drop_subset _ _ hm)
    have hm3 := h i hisl
    rw [matchSeg3_eq_none hnl'] at hm3
    apply hm3 (p - (i + 1))
    refine (Q1_drop (by omega)).mpr ?_
    rw [show i + 1 + (p - (i + 1)) = p from by omega]
    exact hq1
  · intro h i hisl
    have hnl' : '\n' ∉ t.drop (i + 1) := fun hm => hnl (List.drop_subset _ _ hm)
    rw [matchSeg3_eq_none hnl']
    intro p' hq1'
    have hp1 : 1 ≤ p' := hq1'.1
    exact h (i + 1 + p') ⟨(Q1_drop hp1).mp hq1', i, by omega, hisl⟩

/-- When the two-group tail succeeds, its capture sits at a `Q2` position that
dominates every `Q1` position. -/
theorem matchSeg2_eq_some {t : List Char} (hnl : '\n' ∉ t) {id : List Char} :
    matchSeg2 t = some id →
      ∃ p, Q2 t p ∧ captureHere (t.drop p) = some id ∧ ∀ q, Q1 t q → q ≤ p := by
  intro h
  unfold matchSeg2 at h
  rw [starSplit_char matchSeg3 t hnl id] at h
  rcases h with ⟨i, hisl, hm3, _⟩
  have hnl' : '\n' ∉ t.drop (i + 1) := fun hm => hnl (List.drop_subset _ _ hm)
  rcases matchSeg3_eq_some hnl' hm3 with ⟨p', hq1', hcap', hmax'⟩
  have hp1 : 1 ≤ p' := hq1'.1
  rw [List.drop_drop] at hcap'
  refine ⟨i + 1 + p', ⟨(Q1_drop hp1).mp hq1', i, by omega, hisl⟩, hcap', ?_⟩
  intro q hq1q
  by_contra hgt
  push_neg at hgt
  have hq' : Q1 (t.drop (i + 1)) (q - (i + 1)) := by
    refine (Q1_drop (by omega)).mpr ?_
    rw [show i + 1 + (q - (i + 1)) = q from by omega]
    exact hq1q
  have := hmax' _ hq'
  omega

/-- The full pattern fails exactly when no `Q3` position exists. -/
theorem matchSeg1_eq_none {t : List Char} (hnl : '\n' ∉ t) :
    matchSeg1 t = none ↔ ∀ p, ¬ Q3 t p := by
  unfold matchSeg1
  rw [starSplit_eq_none matchSeg2 t hnl]
  constructor
  · rintro h p ⟨hq1, i, j, hij, hjlt, hisl, hjsl⟩
    have hnl' : '\n' ∉ t.drop (i + 1) := fun hm => hnl (List.drop_subset _ _ hm)
    have hm2 := h i hisl
    rw [matchSeg2_eq_none hnl'] at hm2
    apply hm2 (p - (i + 1))
    rw [Q2_drop (show 1 ≤ p - (i + 1) from by omega),
        show i + 1 + (p - (i + 1)) = p from by omega]
    exact ⟨hq1, j, by omega, hjlt, hjsl⟩
  · intro h i hisl
    have hnl' : '\n' ∉ t.drop (i + 1) := fun hm => hnl (List.drop_subset _ _ hm)
    rw [matchSeg2_eq_none hnl']
    intro p' hq2'
    have hp1 : 1 ≤ p' := hq2'.1.1
    rw [Q2_drop hp1] at hq2'
    rcases hq2' with ⟨hq1, j, haj, hjlt, hjsl⟩
    exact h (i + 1 + p') ⟨hq1, i, j, by omega, by omega, hisl, hjsl⟩

/-- When the full pattern succeeds, its capture sits at a `Q3` position that
dominates every `Q1` position. -/
theorem matchSeg1_eq_some {t : List Char} (hnl : '\n' ∉ t) {id : List Char} :
    matchSeg1 t = some id →
      ∃ p, Q3 t p ∧ captureHere (t.drop p) = some id ∧ ∀ q, Q1 t q → q ≤ p := by
  intro h
  unfold matchSeg1 at h
  rw [starSplit_char matchSeg2 t hnl id] at h
  rcases h with ⟨i, hisl, hm2, _⟩
  have hnl' : '\n' ∉ t.drop (i + 1) := fun hm => hnl (List.drop_subset _ _ hm)
  rcases matchSeg2_eq_some hnl' hm2 with ⟨p', hq2', hcap', hmax'⟩
  have hp1 : 1 ≤ p' := hq2'.1.1
  rw [Q2_drop hp1] at hq2'
  rcases hq2' with ⟨hq1abs, j, haj, hjlt, hjsl⟩
  rw [List.drop_drop] at hcap'
  refine ⟨i + 1 + p', ⟨hq1abs, i, j, by omega, by omega, hisl, hjsl⟩, hcap', ?_⟩
  intro q hq1q
  by_contra hgt
  push_neg at hgt
  have hq' : Q1 (t.drop (i + 1)) (q - (i + 1)) := by
    refine (Q1_drop (by omega)).mpr ?_
    rw [show i + 1 + (q - (i + 1)) = q from by omega]
    exact hq1q
  have := hmax' _ hq'
  omega

/-- Unanchored leftmost search coincides with the anchored match on
newline-free input: a match starting later is also a match starting at the
very beginning, because the leading greedy `.*` absorbs any prefix. -/
theorem extractList_char {s : List Char} (hnl : '\n' ∉ s) (id : List Char) :
    extractList s = some id ↔ matchSeg1 s = some id := by
  unfold extractList
  cases hm : matchSeg1 s with
  | some v =>
      rw [List.range_succ_eq_map, List.findSome?_cons_of_isSome _
        (by rw [List.drop_zero, hm]; rfl)]
      rw [List.drop_zero, hm]
  | none =>
      have hall : ∀ k ∈ List.range (s.length + 1), matchSeg1 (s.drop k) = none := by
        intro k _
        have hnl' : '\n' ∉ s.drop k := fun hmem => hnl (List.drop_subset _ _ hmem)
        rw [matchSeg1_eq_none hnl']
        intro p hq3
        have hp1 : 1 ≤ p := hq3.1.1
        have habs : Q3 s (k + p) := Q3_drop_abs hp1 hq3
        rw [matchSeg1_eq_none hnl] at hm
        exact hm (k + p) habs
      rw [List.findSome?_eq_none_iff.mpr hall]

/-- C7 fails on the code: the greedy leading wildcards of the pattern
`.*/.*/.*/make87_messages-([^/]+)/.*` make the capture land on the LAST
qualifying segment, not the first.  In this topic the first qualifying
capture after the fixed three-segment prefix is `text-PlainText` (position 6
qualifies: separators at 1, 3 and 5), yet extraction returns
`image-compressed-ImageJPEG`. -/
theorem claim_C7_counterexample :
    MessageTypeRegistry.extract_message_type_from_topic_key
        "a/b/c/make87_messages-text-PlainText/make87_messages-image-compressed-ImageJPEG/x" =
      some "image-compressed-ImageJPEG" ∧
    ("image-compressed-ImageJPEG" : String) ≠ "text-PlainText" ∧
    Q3 "a/b/c/make87_messages-text-PlainText/make87_messages-image-compressed-ImageJPEG/x".toList 6 ∧
    captureHere
        ("a/b/c/make87_messages-text-PlainText/make87_messages-image-compressed-ImageJPEG/x".toList.drop 6) =
      some "text-PlainText".toList := by
  refine ⟨by decide, by decide, ⟨⟨by decide, by decide, by decide⟩,
    1, 3, by decide, by decide, by decide, by decide⟩, by decide⟩

/-- C7 (amended): extraction uses the LAST qualifying capture: on a
newline-free topic, the extracted identifier is the capture at the greatest
position `p` such that a separator immediately precedes `p`, two further
separators occur earlier, and `make87_messages-` followed by a nonempty
separator-free identifier and a separator matches at `p`; the identifier is
exactly the text from after the literal up to (not including) the next
separator. -/
theorem claim_C7_amended_last_capture (s id : List Char) (hnl : '\n' ∉ s) :
    (extractList s = some id ↔
      ∃ p, Q3 s p ∧ captureHere (s.drop p) = some id ∧ ∀ q, Q3 s q → q ≤ p) ∧
    (∀ (t ident : List Char), captureHere t = some ident →
      ident = (t.drop litKey.length).takeWhile (fun c => c != '/')) ∧
    (∀ tk : String,
      MessageTypeRegistry.extract_message_type_from_topic_key tk =
        (extractList tk.toList).map (fun l => String.mk l)) := by
  refine ⟨?_, ?_, fun _ => rfl⟩
  · rw [extractList_char hnl id]
    constructor
    · intro h
      rcases matchSeg1_eq_some hnl h with ⟨p, hq3, hcap, hmax⟩
      exact ⟨p, hq3, hcap, fun q hq => hmax q hq.1⟩
    · rintro ⟨p, hq3, hcap, hmax⟩
      cases hm : matchSeg1 s with
      | none =>
          rw [matchSeg1_eq_none hnl] at hm
          exact absurd hq3 (hm p)
      | some v =>
          rcases matchSeg1_eq_some hnl hm with ⟨p', hq3', hcap', hmax'⟩
          have h1 : p ≤ p' := hmax' p hq3.1
          have h2 : p' ≤ p := hmax p' hq3'
          have hpp : p' = p := by omega
          rw [hpp, hcap] at hcap'
          rw [hcap']
  · intro t ident h
    unfold captureHere at h
    by_cases h1 : t.take litKey.length = litKey
    · rw [if_pos h1] at h
      by_cases h2 : (t.drop litKey.length).takeWhile (fun c => c != '/') ≠ [] ∧
          (t.drop litKey.length).dropWhile (fun c => c != '/') ≠ []
      · rw [if_pos h2] at h
        exact (Option.some.inj h).symm
      · rw [if_neg h2] at h
        cases h
    · rw [if_neg h1] at h
      cases h

/-- Closed witness for the amended C7: on the two-segment topic the
characterization produces the position of the last qualifying capture. -/
theorem claim_C7_amended_last_capture_witness :
    ('\n' ∉
      "a/b/c/make87_messages-text-PlainText/make87_messages-image-compressed-ImageJPEG/x".toList) ∧
    ∃ p,
      Q3 "a/b/c/make87_messages-text-PlainText/make87_messages-image-compressed-ImageJPEG/x".toList
          p ∧
      captureHere
          ("a/b/c/make87_messages-text-PlainText/make87_messages-image-compressed-ImageJPEG/x".toList.drop
            p) =
        some "image-compressed-ImageJPEG".toList ∧
      ∀ q,
        Q3 "a/b/c/make87_messages-text-PlainText/make87_messages-image-compressed-ImageJPEG/x".toList
            q →
        q ≤ p :=
  ⟨by decide,
   ((claim_C7_amended_last_capture
      "a/b/c/make87_messages-text-PlainText/make87_messages-image-compressed-ImageJPEG/x".toList
      "image-compressed-ImageJPEG".toList (by decide)).1).mp (by decide)⟩

end MessagesShipper
